import Mathlib

/-!
Verification of `make_lu_knee_wall_eff_rvalue.py`, the HEScore knee-wall
effective-R-value lookup-table generator.

The script reads a list of knee-wall assembly codes from a JSON schema,
extracts the nominal cavity R-value embedded in each code (regex
`kwwf(\d+)`, a prefix match with a greedy digit group), computes the
effective assembly R-value with a parallel-path framing/cavity formula,
and writes a CSV with header `doe2code,U-value,Eff-R-value`, formatting
the U-value to 3 decimal places and the R-value to 1 decimal place.

The embedding models the script's float arithmetic over exact rationals
(the constants 0.68, 0.45, 4.38, 16, 3.5 are exact decimals) and the
fixed-point formatting `f"{x:.d f}"` as decimal rounding of the rational
value.  A run over a list of assembly codes is a pure function producing
either the full list of CSV rows, or the rows written before the first
code that fails the regex together with that code (the Python raises an
unhandled exception at that point, after the earlier rows were written).
-/

namespace KneeWall

/-- Interior air film R-value, from the constant `int_air_film_r_value = 0.68`. -/
def int_air_film_r_value : ℚ := 68 / 100

/-- Gypsum layer R-value, from the constant `gyp_r_value = 0.45`. -/
def gyp_r_value : ℚ := 45 / 100

/-- Wood stud R-value, from the constant `wood_stud_r_value = 4.38`. -/
def wood_stud_r_value : ℚ := 438 / 100

/-- Stud spacing, from the constant `stud_spacing = 16`. -/
def stud_spacing : ℚ := 16

/-- Wood stud width, from the constant `wood_stud_width = 3.5`. -/
def wood_stud_width : ℚ := 7 / 2

/-- Value of a digit string, as computed by Python `int` on the digits
captured by the regex group. -/
def digitsToNat (ds : List Char) : Nat :=
  ds.foldl (fun a c => 10 * a + (c.toNat - 48)) 0

/-- `re.match(r"kwwf(\d+)", assembly_code)` followed by `int(.group(1))`:
a *prefix* match anchored at the start of the string, whose group is the
maximal (greedy) run of digits right after the literal `kwwf`; `none`
models `re.match` returning `None` (so that `.group(1)` raises). -/
def parseCavR : List Char → Option Nat
  | 'k' :: 'w' :: 'w' :: 'f' :: rest =>
    let ds := rest.takeWhile Char.isDigit
    if ds.isEmpty then none else some (digitsToNat ds)
  | _ => none

/-- The denominator of the parallel-path term:
`wood_stud_width / stud_spacing / wood_stud_r_value
  + (1 - wood_stud_width / stud_spacing) / cav_r_value`. -/
def parallel_denom (cav : Nat) : ℚ :=
  wood_stud_width / stud_spacing / wood_stud_r_value +
    (1 - wood_stud_width / stud_spacing) / (cav : ℚ)

/-- The assembly R-value: `2 * int_air_film_r_value + gyp_r_value`, plus
`1 / parallel_denom` when `cav_r_value > 0`. -/
def assembly_r_value (cav : Nat) : ℚ :=
  if cav > 0 then
    2 * int_air_film_r_value + gyp_r_value + 1 / parallel_denom cav
  else
    2 * int_air_film_r_value + gyp_r_value

/-- The assembly U-value: `1 / assembly_r_value`. -/
def assembly_u_value (cav : Nat) : ℚ := 1 / assembly_r_value cav

/-- Left-pad a digit string with zeros to length `d` (fractional part of
fixed-point formatting). -/
def padZeros (d : Nat) (s : List Char) : List Char :=
  List.replicate (d - s.length) '0' ++ s

/-- `f"{q:.df}"` on a nonnegative value: round `q` to `d` decimal digits
(half away from zero at the .5 boundary) and print with exactly `d`
digits after the decimal point. -/
def formatFixed (d : Nat) (q : ℚ) : String :=
  let n := (⌊q * (10 : ℚ) ^ d + 1 / 2⌋).toNat
  let whole := n / 10 ^ d
  let frac := n % 10 ^ d
  String.mk (Nat.toDigits 10 whole ++ '.' :: padZeros d (Nat.toDigits 10 frac))

/-- The rational value denoted by the `d`-decimal fixed-point rendering of
`q` (the printed number, read back as an exact rational). -/
def roundQ (d : Nat) (q : ℚ) : ℚ :=
  ((⌊q * (10 : ℚ) ^ d + 1 / 2⌋ : ℤ) : ℚ) / (10 : ℚ) ^ d

/-- One CSV data row: `[assembly_code, f"{u:.3f}", f"{r:.1f}"]`. -/
structure Row where
  doe2code : String
  uValue : String
  effRValue : String
deriving DecidableEq, Repr

/-- The row written for an assembly code whose extracted cavity R-value is
`cav`. -/
def mkRow (s : String) (cav : Nat) : Row :=
  { doe2code := s
    uValue := formatFixed 3 (assembly_u_value cav)
    effRValue := formatFixed 1 (assembly_r_value cav) }

/-- Outcome of running the generator's loop: all rows written (`ok`), or
the rows written before the first assembly code on which the regex match
fails, together with that code (`crashed`: the Python raises an unhandled
`AttributeError` there and writes nothing further). -/
inductive RunResult where
  | ok (rows : List Row)
  | crashed (rows : List Row) (failedCode : String)
deriving DecidableEq, Repr

/-- The `for assembly_code in knee_wall_assembly_codes` loop, carrying the
rows already written to the CSV. -/
def writeRows : List String → List Row → RunResult
  | [], acc => RunResult.ok acc
  | s :: rest, acc =>
    match parseCavR s.data with
    | none => RunResult.crashed acc s
    | some cav => writeRows rest (acc ++ [mkRow s cav])

/-- Run the generator on a list of assembly codes. -/
def run (codes : List String) : RunResult := writeRows codes []

/-- The header row `['doe2code', 'U-value', 'Eff-R-value']`, written before
the loop. -/
def headerRow : List String := ["doe2code", "U-value", "Eff-R-value"]

/-- The fields of a data row as passed to `csv_writer.writerow`. -/
def rowFields (r : Row) : List String := [r.doe2code, r.uValue, r.effRValue]

/-- The full table present in the CSV file after a run: the header, then
whatever data rows were written (also for a crashed run, since the header
and earlier rows were written before the exception). -/
def csvTable (res : RunResult) : List (List String) :=
  match res with
  | RunResult.ok rows => headerRow :: rows.map rowFields
  | RunResult.crashed rows _ => headerRow :: rows.map rowFields

/-- One serialized CSV line (the `csv` module's default dialect:
comma-separated, `\r\n` terminator). -/
def csvLine (fields : List String) : String :=
  String.intercalate "," fields ++ "\r\n"

/-- The bytes of the output file, as a string. -/
def csvFile (res : RunResult) : String :=
  String.join ((csvTable res).map csvLine)

/-! ### Evaluation helpers -/

lemma formatFixed_eq (d : Nat) (q : ℚ) (n : ℕ)
    (h : ⌊q * (10 : ℚ) ^ d + 1 / 2⌋ = (n : ℤ)) :
    formatFixed d q =
      String.mk (Nat.toDigits 10 (n / 10 ^ d) ++
        '.' :: padZeros d (Nat.toDigits 10 (n % 10 ^ d))) := by
  unfold formatFixed
  rw [h, Int.toNat_natCast]

lemma r_zero : assembly_r_value 0 = 181 / 100 := by
  unfold assembly_r_value int_air_film_r_value gyp_r_value
  norm_num

lemma r_thirteen : assembly_r_value 13 = 436997 / 40100 := by
  unfold assembly_r_value parallel_denom int_air_film_r_value gyp_r_value
    wood_stud_r_value stud_spacing wood_stud_width
  norm_num

lemma u_thirteen : assembly_u_value 13 = 40100 / 436997 := by
  unfold assembly_u_value
  rw [r_thirteen]
  norm_num

lemma fmt_r_zero : formatFixed 1 (assembly_r_value 0) = "1.8" := by
  rw [formatFixed_eq 1 _ 18 (by rw [r_zero]; norm_num [Int.floor_eq_iff])]
  decide

lemma fmt_u_zero : formatFixed 3 (assembly_u_value 0) = "0.552" := by
  rw [formatFixed_eq 3 _ 552
    (by unfold assembly_u_value; rw [r_zero]; norm_num [Int.floor_eq_iff])]
  decide

lemma fmt_r_thirteen : formatFixed 1 (assembly_r_value 13) = "10.9" := by
  rw [formatFixed_eq 1 _ 109 (by rw [r_thirteen]; norm_num [Int.floor_eq_iff])]
  decide

lemma fmt_u_thirteen : formatFixed 3 (assembly_u_value 13) = "0.092" := by
  rw [formatFixed_eq 3 _ 92 (by rw [u_thirteen]; norm_num [Int.floor_eq_iff])]
  decide

lemma roundQ_r_thirteen : roundQ 1 (assembly_r_value 13) = 109 / 10 := by
  have h : ⌊assembly_r_value 13 * (10 : ℚ) ^ 1 + 1 / 2⌋ = (109 : ℤ) := by
    rw [r_thirteen]; norm_num [Int.floor_eq_iff]
  unfold roundQ
  rw [h]
  norm_num

lemma roundQ_u_thirteen : roundQ 3 (assembly_u_value 13) = 92 / 1000 := by
  have h : ⌊assembly_u_value 13 * (10 : ℚ) ^ 3 + 1 / 2⌋ = (92 : ℤ) := by
    rw [u_thirteen]; norm_num [Int.floor_eq_iff]
  unfold roundQ
  rw [h]
  norm_num

/-! ### Bounds on the computed values -/

lemma parallel_denom_eq (cav : Nat) :
    parallel_denom cav = 175 / 3504 + (25 / 32) / (cav : ℚ) := by
  unfold parallel_denom wood_stud_width stud_spacing wood_stud_r_value
  ring

lemma parallel_denom_pos (cav : Nat) (h : 0 < cav) : 0 < parallel_denom cav := by
  have hc : (0 : ℚ) < (cav : ℚ) := by exact_mod_cast h
  rw [parallel_denom_eq]
  have h1 : (0 : ℚ) < (25 / 32 : ℚ) / (cav : ℚ) := div_pos (by norm_num) hc
  linarith

lemma parallel_denom_ge (cav : Nat) (h : 0 < cav) :
    (175 / 3504 : ℚ) ≤ parallel_denom cav := by
  have hc : (0 : ℚ) < (cav : ℚ) := by exact_mod_cast h
  rw [parallel_denom_eq]
  have h1 : (0 : ℚ) ≤ (25 / 32 : ℚ) / (cav : ℚ) :=
    le_of_lt (div_pos (by norm_num) hc)
  linarith

lemma assembly_r_lower (cav : Nat) : (181 / 100 : ℚ) ≤ assembly_r_value cav := by
  unfold assembly_r_value int_air_film_r_value gyp_r_value
  by_cases h : cav > 0
  · rw [if_pos h]
    have hd := parallel_denom_pos cav h
    have h1 : (0 : ℚ) < 1 / parallel_denom cav := one_div_pos.mpr hd
    linarith
  · rw [if_neg h]
    norm_num

lemma assembly_r_upper (cav : Nat) : assembly_r_value cav ≤ 219 / 10 := by
  unfold assembly_r_value int_air_film_r_value gyp_r_value
  by_cases h : cav > 0
  · rw [if_pos h]
    have hd := parallel_denom_ge cav h
    have hp : (0 : ℚ) < 175 / 3504 := by norm_num
    have h1 := one_div_le_one_div_of_le hp hd
    have h2 : (1 : ℚ) / (175 / 3504) = 3504 / 175 := by norm_num
    rw [h2] at h1
    linarith
  · rw [if_neg h]
    norm_num

/-- The printed `d`-decimal value differs from the exact value by at most
half of the last printed digit. -/
lemma roundQ_err (d : Nat) (q : ℚ) : |roundQ d q - q| ≤ 1 / (2 * 10 ^ d) := by
  unfold roundQ
  have hpow : (0 : ℚ) < 10 ^ d := by positivity
  have h1 : ((⌊q * 10 ^ d + 1 / 2⌋ : ℤ) : ℚ) ≤ q * 10 ^ d + 1 / 2 :=
    Int.floor_le _
  have h2 : q * 10 ^ d - 1 / 2 < ((⌊q * 10 ^ d + 1 / 2⌋ : ℤ) : ℚ) := by
    have := Int.sub_one_lt_floor (q * 10 ^ d + 1 / 2)
    linarith
  have e : ((⌊q * 10 ^ d + 1 / 2⌋ : ℤ) : ℚ) / 10 ^ d - q
      = (((⌊q * 10 ^ d + 1 / 2⌋ : ℤ) : ℚ) - q * 10 ^ d) / 10 ^ d := by
    field_simp
    ring
  rw [e, abs_div, abs_of_pos hpow, div_le_div_iff hpow (by positivity)]
  have h3 : |((⌊q * 10 ^ d + 1 / 2⌋ : ℤ) : ℚ) - q * 10 ^ d| ≤ 1 / 2 := by
    rw [abs_le]
    constructor <;> linarith
  have h4 : |((⌊q * 10 ^ d + 1 / 2⌋ : ℤ) : ℚ) - q * 10 ^ d| * (2 * 10 ^ d)
      ≤ (1 / 2) * (2 * 10 ^ d) :=
    mul_le_mul_of_nonneg_right h3 (by positivity)
  linarith

/-- Product of the two printed values, bounded around 1 from the exact
reciprocal relation and the two rounding errors. -/
lemma approx_recip (u r u' r' : ℚ) (hur : u * r = 1)
    (hu : 0 ≤ u) (hu_le : u ≤ 100 / 181) (hr : 0 ≤ r) (hr2 : r ≤ 219 / 10)
    (e3 : |u' - u| ≤ 1 / 2000) (e1 : |r' - r| ≤ 1 / 20) :
    |u' * r' - 1| ≤ 1 / 25 := by
  have key : u' * r' - 1 = u' * (r' - r) + r * (u' - u) := by
    linear_combination hur
  have h0 : u' = u + (u' - u) := by ring
  have hu' : |u'| ≤ 100 / 181 + 1 / 2000 := by
    have habs : |u'| ≤ |u| + |u' - u| := by
      calc |u'| = |u + (u' - u)| := by rw [← h0]
        _ ≤ |u| + |u' - u| := abs_add _ _
    rw [abs_of_nonneg hu] at habs
    linarith
  have h1 : |u' * (r' - r)| ≤ (100 / 181 + 1 / 2000) * (1 / 20) := by
    rw [abs_mul]
    exact mul_le_mul hu' e1 (abs_nonneg _) (by norm_num)
  have h2 : |r * (u' - u)| ≤ (219 / 10) * (1 / 2000) := by
    rw [abs_mul, abs_of_nonneg hr]
    exact mul_le_mul hr2 e3 (abs_nonneg _) (by linarith)
  calc |u' * r' - 1| = |u' * (r' - r) + r * (u' - u)| := by rw [key]
    _ ≤ |u' * (r' - r)| + |r * (u' - u)| := abs_add _ _
    _ ≤ (100 / 181 + 1 / 2000) * (1 / 20) + (219 / 10) * (1 / 2000) := by
        linarith
    _ ≤ 1 / 25 := by norm_num

/-! ### Claim theorems -/

/-- Claim C1: for every identifier whose extracted cavity resistance is
greater than zero, the computed total assembly resistance equals
`2*0.68 + 0.45 + 1/((3.5/16)/4.38 + (1 - 3.5/16)/cavity_resistance)`:
two interior air films, the interior finish layer, and the parallel
combination of framing and cavity resistances weighted by the
framing-to-spacing ratio and its complement. -/
theorem assembly_formula_parallel_path (s : String) (cav : Nat)
    (hp : parseCavR s.data = some cav) (hc : 0 < cav) :
    assembly_r_value cav =
      2 * (68 / 100 : ℚ) + 45 / 100 +
        1 / ((7 / 2 : ℚ) / 16 / (438 / 100) +
          (1 - (7 / 2 : ℚ) / 16) / (cav : ℚ)) := by
  unfold assembly_r_value parallel_denom int_air_film_r_value gyp_r_value
    wood_stud_r_value stud_spacing wood_stud_width
  rw [if_pos hc]

/-- Witness for C1 at the identifier `kwwf13ca` (cavity resistance 13). -/
theorem assembly_formula_parallel_path_witness :
    parseCavR "kwwf13ca".data = some 13 ∧ 0 < 13 ∧
    assembly_r_value 13 =
      2 * (68 / 100 : ℚ) + 45 / 100 +
        1 / ((7 / 2 : ℚ) / 16 / (438 / 100) +
          (1 - (7 / 2 : ℚ) / 16) / ((13 : Nat) : ℚ)) :=
  ⟨by decide, by decide,
    assembly_formula_parallel_path "kwwf13ca" 13 (by decide) (by decide)⟩

/-- Claim C2: for every identifier whose extracted cavity resistance is 0,
the computed total assembly resistance is exactly
`0.68 + 0.68 + 0.45 = 1.81` (no parallel term), and the emitted row prints
the resistance as `"1.8"` and the conductance `1/1.81` as `"0.552"`. -/
theorem zero_cavity_row (s : String) (hp : parseCavR s.data = some 0) :
    assembly_r_value 0 = 68 / 100 + 68 / 100 + 45 / 100 ∧
    assembly_r_value 0 = 181 / 100 ∧
    mkRow s 0 = { doe2code := s, uValue := "0.552", effRValue := "1.8" } := by
  refine ⟨by rw [r_zero]; norm_num, r_zero, ?_⟩
  unfold mkRow
  rw [fmt_u_zero, fmt_r_zero]

/-- Witness for C2 at the identifier `kwwf00ca`. -/
theorem zero_cavity_row_witness :
    parseCavR "kwwf00ca".data = some 0 ∧
    (assembly_r_value 0 = 68 / 100 + 68 / 100 + 45 / 100 ∧
     assembly_r_value 0 = 181 / 100 ∧
     mkRow "kwwf00ca" 0 =
       { doe2code := "kwwf00ca", uValue := "0.552", effRValue := "1.8" }) :=
  ⟨by decide, zero_cavity_row "kwwf00ca" (by decide)⟩

/-- Counterexample to claim C3: for the identifier `kwwf13ca` (cavity
resistance 13) the computed resistance does NOT round to 13.0 at one
decimal place, nor the conductance to 0.077 at three: the values are
10.9 and 0.092. -/
theorem r13_spec_example_false :
    parseCavR "kwwf13ca".data = some 13 ∧
    ¬(roundQ 1 (assembly_r_value 13) = 13 ∧
      roundQ 3 (assembly_u_value 13) = 77 / 1000) := by
  refine ⟨by decide, fun h => ?_⟩
  rw [roundQ_r_thirteen] at h
  exact absurd h.1 (by norm_num)

/-- Amended claim C3: for the identifier `kwwf13ca` encoding cavity
resistance 13, the computed resistance
`0.68+0.68+0.45 + 1/((3.5/16/4.38) + ((1-3.5/16)/13))` rounds to 10.9 at
one decimal place (printed `"10.9"`) and the computed conductance rounds
to 0.092 at three decimal places (printed `"0.092"`). -/
theorem r13_rounded_values :
    parseCavR "kwwf13ca".data = some 13 ∧
    roundQ 1 (assembly_r_value 13) = 109 / 10 ∧
    roundQ 3 (assembly_u_value 13) = 92 / 1000 ∧
    formatFixed 1 (assembly_r_value 13) = "10.9" ∧
    formatFixed 3 (assembly_u_value 13) = "0.092" :=
  ⟨by decide, roundQ_r_thirteen, roundQ_u_thirteen, fmt_r_thirteen,
    fmt_u_thirteen⟩

/-- Claim C4: for every cavity resistance, the computed conductance is the
reciprocal of the computed resistance — their product is exactly 1 before
formatting — and the product of the printed U-value (3 decimals) and the
printed Eff-R-value (1 decimal) is within 1/25 of 1, the tolerance
induced by the printed precisions. -/
theorem u_times_r_eq_one (cav : Nat) :
    assembly_u_value cav * assembly_r_value cav = 1 ∧
    |roundQ 3 (assembly_u_value cav) * roundQ 1 (assembly_r_value cav) - 1|
      ≤ 1 / 25 := by
  have hr1 := assembly_r_lower cav
  have hr2 := assembly_r_upper cav
  have hrpos : (0 : ℚ) < assembly_r_value cav := by linarith
  have hur : assembly_u_value cav * assembly_r_value cav = 1 := by
    unfold assembly_u_value
    rw [one_div, inv_mul_cancel₀ (ne_of_gt hrpos)]
  have hupos : (0 : ℚ) < assembly_u_value cav := by
    unfold assembly_u_value
    exact one_div_pos.mpr hrpos
  have hule : assembly_u_value cav ≤ 100 / 181 := by
    unfold assembly_u_value
    rw [div_le_div_iff hrpos (by norm_num : (0 : ℚ) < 181)]
    linarith
  have e3 := roundQ_err 3 (assembly_u_value cav)
  have e1 := roundQ_err 1 (assembly_r_value cav)
  norm_num at e3 e1
  exact ⟨hur, approx_recip _ _ _ _ hur (le_of_lt hupos) hule
    (le_of_lt hrpos) hr2 e3 e1⟩

/-- Claim C9: no division by zero: the division by the cavity resistance
happens only under the guard `cav_r_value > 0`, where the parallel-path
denominator is strictly positive, and the total resistance is at least
1.81 and in particular nonzero, so its reciprocal (the U-value) is
well defined. -/
theorem no_division_by_zero (cav : Nat) :
    (181 / 100 : ℚ) ≤ assembly_r_value cav ∧
    assembly_r_value cav ≠ 0 ∧
    (0 < cav → 0 < parallel_denom cav) := by
  have h1 := assembly_r_lower cav
  refine ⟨h1, ?_, fun h => parallel_denom_pos cav h⟩
  have : (0 : ℚ) < assembly_r_value cav := by linarith
  exact ne_of_gt this

/-- Witness for C9 at cavity resistance 13, discharging the guard. -/
theorem no_division_by_zero_witness :
    (181 / 100 : ℚ) ≤ assembly_r_value 13 ∧
    assembly_r_value 13 ≠ 0 ∧
    0 < parallel_denom 13 :=
  ⟨(no_division_by_zero 13).1, (no_division_by_zero 13).2.1,
    (no_division_by_zero 13).2.2 (by norm_num)⟩

/-! ### The loop over assembly codes -/

lemma writeRows_acc (codes : List String) (acc : List Row) :
    writeRows codes acc =
      match writeRows codes [] with
      | RunResult.ok rows => RunResult.ok (acc ++ rows)
      | RunResult.crashed rows c => RunResult.crashed (acc ++ rows) c := by
  induction codes generalizing acc with
  | nil => simp [writeRows]
  | cons s rest ih =>
    cases hp : parseCavR s.data with
    | none => simp [writeRows, hp]
    | some cav =>
      simp only [writeRows, hp]
      rw [ih (acc ++ [mkRow s cav]), ih ([] ++ [mkRow s cav])]
      cases writeRows rest [] <;> simp

lemma run_ok_elem (codes : List String) (rows : List Row)
    (h : run codes = RunResult.ok rows) :
    ∀ r ∈ rows, ∃ cav, parseCavR r.doe2code.data = some cav ∧
      r = mkRow r.doe2code cav := by
  induction codes generalizing rows with
  | nil =>
    simp only [run, writeRows] at h
    cases h
    intro r hr
    cases hr
  | cons s rest ih =>
    simp only [run, writeRows] at h
    cases hp : parseCavR s.data with
    | none =>
      rw [hp] at h
      simp at h
    | some cav =>
      rw [hp] at h
      simp only [] at h
      rw [writeRows_acc rest ([] ++ [mkRow s cav])] at h
      cases hr : writeRows rest [] with
      | crashed rows' c =>
        rw [hr] at h
        simp at h
      | ok rows' =>
        rw [hr] at h
        simp only [List.nil_append, List.singleton_append] at h
        cases h
        intro r hrmem
        cases List.mem_cons.mp hrmem with
        | inl heq =>
          subst heq
          exact ⟨cav, by simp [mkRow, hp], rfl⟩
        | inr hmem =>
          exact ih rows' hr r hmem

/-- Claim C5: when every identifier in the input list parses, the run
succeeds with exactly one data row per input identifier, carrying the
input identifiers one-to-one and in input order. -/
theorem run_ok_rows (codes : List String)
    (h : ∀ s ∈ codes, (parseCavR s.data).isSome) :
    ∃ rows, run codes = RunResult.ok rows ∧
      rows.length = codes.length ∧ rows.map Row.doe2code = codes := by
  induction codes with
  | nil => exact ⟨[], rfl, rfl, rfl⟩
  | cons s rest ih =>
    have hs := h s (List.mem_cons_self s rest)
    obtain ⟨cav, hcav⟩ := Option.isSome_iff_exists.mp hs
    obtain ⟨rows, hrun, hlen, hmap⟩ :=
      ih (fun t ht => h t (List.mem_cons_of_mem s ht))
    refine ⟨mkRow s cav :: rows, ?_, ?_, ?_⟩
    · simp only [run, writeRows, hcav]
      rw [writeRows_acc rest ([] ++ [mkRow s cav])]
      simp only [run] at hrun
      rw [hrun]
      simp
    · simp [hlen]
    · simp only [List.map_cons, hmap, mkRow]

/-- Witness for C5 on the two-element list `[kwwf00ca, kwwf13ca]`. -/
theorem run_ok_rows_witness :
    (∀ s ∈ (["kwwf00ca", "kwwf13ca"] : List String),
      (parseCavR s.data).isSome) ∧
    ∃ rows, run ["kwwf00ca", "kwwf13ca"] = RunResult.ok rows ∧
      rows.length = (["kwwf00ca", "kwwf13ca"] : List String).length ∧
      rows.map Row.doe2code = ["kwwf00ca", "kwwf13ca"] :=
  ⟨by decide, run_ok_rows _ (by decide)⟩

/-- Claim C6: for every successful run, the output table starts with the
fixed header row `doe2code,U-value,Eff-R-value`, and every data row is
the identifier followed by the conductance formatted to 3 decimal places
and the resistance formatted to 1 decimal place. -/
theorem output_table_shape (codes : List String) (rows : List Row)
    (h : run codes = RunResult.ok rows) :
    csvTable (run codes) = headerRow :: rows.map rowFields ∧
    ∀ r ∈ rows, ∃ cav, parseCavR r.doe2code.data = some cav ∧
      rowFields r = [r.doe2code, formatFixed 3 (assembly_u_value cav),
        formatFixed 1 (assembly_r_value cav)] := by
  constructor
  · rw [h]
    rfl
  · intro r hr
    obtain ⟨cav, hcav, heq⟩ := run_ok_elem codes rows h r hr
    refine ⟨cav, hcav, ?_⟩
    rw [heq]
    rfl

/-- Witness for C6 on the one-element list `[kwwf00ca]`. -/
theorem output_table_shape_witness :
    run ["kwwf00ca"] = RunResult.ok [mkRow "kwwf00ca" 0] ∧
    csvTable (run ["kwwf00ca"]) =
      headerRow :: [mkRow "kwwf00ca" 0].map rowFields :=
  ⟨rfl, (output_table_shape ["kwwf00ca"] [mkRow "kwwf00ca" 0] rfl).1⟩

/-- Claim C7: when some identifier fails the naming pattern, the run
crashes at the first such identifier: the emitted rows are exactly those
of the identifiers strictly before it, and nothing is emitted for it or
for any later identifier. -/
theorem run_crash_partial (codes : List String)
    (h : ∃ s ∈ codes, parseCavR s.data = none) :
    ∃ pre bad post rows, codes = pre ++ bad :: post ∧
      (∀ s ∈ pre, (parseCavR s.data).isSome) ∧
      parseCavR bad.data = none ∧
      run codes = RunResult.crashed rows bad ∧
      rows.map Row.doe2code = pre := by
  induction codes with
  | nil =>
    obtain ⟨s, hs, _⟩ := h
    cases hs
  | cons s rest ih =>
    cases hp : parseCavR s.data with
    | none =>
      refine ⟨[], s, rest, [], rfl, by simp, hp, ?_, rfl⟩
      simp only [run, writeRows, hp]
    | some cav =>
      have hrest : ∃ t ∈ rest, parseCavR t.data = none := by
        obtain ⟨t, ht, htn⟩ := h
        cases List.mem_cons.mp ht with
        | inl heq =>
          rw [heq] at htn
          rw [htn] at hp
          cases hp
        | inr hmem => exact ⟨t, hmem, htn⟩
      obtain ⟨pre, bad, post, rows, hsplit, hpre, hbad, hrun, hmap⟩ :=
        ih hrest
      refine ⟨s :: pre, bad, post, mkRow s cav :: rows,
        by rw [hsplit, List.cons_append], ?_, hbad, ?_, ?_⟩
      · intro t ht
        cases List.mem_cons.mp ht with
        | inl heq => rw [heq, hp]; rfl
        | inr hmem => exact hpre t hmem
      · simp only [run, writeRows, hp]
        rw [writeRows_acc rest ([] ++ [mkRow s cav])]
        simp only [run] at hrun
        rw [hrun]
        simp
      · simp only [List.map_cons, hmap, mkRow]

/-- Witness for C7 on `[kwwf13ca, bogus, kwwf19ca]`, whose second element
fails the pattern. -/
theorem run_crash_partial_witness :
    (∃ s ∈ (["kwwf13ca", "bogus", "kwwf19ca"] : List String),
      parseCavR s.data = none) ∧
    ∃ pre bad post rows,
      (["kwwf13ca", "bogus", "kwwf19ca"] : List String) =
        pre ++ bad :: post ∧
      (∀ s ∈ pre, (parseCavR s.data).isSome) ∧
      parseCavR bad.data = none ∧
      run ["kwwf13ca", "bogus", "kwwf19ca"] = RunResult.crashed rows bad ∧
      rows.map Row.doe2code = pre :=
  ⟨by decide, run_crash_partial _ (by decide)⟩

/-- Claim C8: the generator is deterministic: two runs on equal input
identifier lists produce byte-identical output files. -/
theorem run_deterministic (codes1 codes2 : List String)
    (h : codes1 = codes2) :
    csvFile (run codes1) = csvFile (run codes2) := by
  rw [h]

/-- Witness for C8 on the list `[kwwf00ca, kwwf13ca]`. -/
theorem run_deterministic_witness :
    (["kwwf00ca", "kwwf13ca"] : List String) = ["kwwf00ca", "kwwf13ca"] ∧
    csvFile (run ["kwwf00ca", "kwwf13ca"]) =
      csvFile (run ["kwwf00ca", "kwwf13ca"]) :=
  ⟨rfl, run_deterministic _ _ rfl⟩

/-! ### Greedy digit matching -/

lemma takeWhile_digits (ds rest : List Char)
    (hds : ∀ c ∈ ds, c.isDigit = true)
    (hrest : ∀ c, rest.head? = some c → c.isDigit = false) :
    (ds ++ rest).takeWhile Char.isDigit = ds := by
  induction ds with
  | nil =>
    cases rest with
    | nil => rfl
    | cons c t =>
      have hc := hrest c rfl
      simp only [List.nil_append]
      rw [List.takeWhile_cons_of_neg]
      rw [hc]
      simp
  | cons c t ih =>
    have hc := hds c (List.mem_cons_self c t)
    rw [List.cons_append, List.takeWhile_cons_of_pos hc,
      ih (fun a ha => hds a (List.mem_cons_of_mem c ha))]

/-- Claim C10: the regex is a prefix match with a greedy digit group:
any identifier that starts with `kwwf` followed by at least one digit
parses successfully whatever follows, and the extracted cavity resistance
is the value of the maximal digit run right after the `kwwf` prefix. -/
theorem parse_greedy_digits (ds rest : List Char)
    (hne : ds ≠ []) (hds : ∀ c ∈ ds, c.isDigit = true)
    (hrest : ∀ c, rest.head? = some c → c.isDigit = false) :
    parseCavR ('k' :: 'w' :: 'w' :: 'f' :: (ds ++ rest)) =
      some (digitsToNat ds) := by
  simp only [parseCavR]
  rw [takeWhile_digits ds rest hds hrest]
  cases ds with
  | nil => exact absurd rfl hne
  | cons c t => rfl

/-- Witness for C10 at `kwwf13x`: the trailing `x` is ignored and the
extracted value is 13. -/
theorem parse_greedy_digits_witness :
    (['1', '3'] : List Char) ≠ [] ∧
    parseCavR ('k' :: 'w' :: 'w' :: 'f' :: (['1', '3'] ++ ['x'])) =
      some (digitsToNat ['1', '3']) ∧
    digitsToNat ['1', '3'] = 13 :=
  ⟨by decide,
    parse_greedy_digits ['1', '3'] ['x'] (by decide) (by decide)
      (by intro c hc; simp at hc; subst hc; decide),
    by decide⟩

end KneeWall
